import Mathlib

/-
Verification of the per-agent decision loop of the pokemon-ai-showdown
repository.  The definitions below are a shallow embedding of the
TypeScript source:

  * src/lib/workflows/game-loop/steps.ts   (decision step, fallback, sequence derivation)
  * src/components/agent/agent-card.tsx    (ban policy, no-change penalty, change detection)
  * src/lib/game-knowledge.ts              (frame fingerprint)
  * src/lib/memstash.ts                    (notes store, decision log)

Strings are embedded as lists of characters, JavaScript numbers as
rationals, and the fallible redis backend as an explicit `Except`-valued
interface.  JavaScript optional object fields (`undefined` versus `null`
versus a value) are embedded as `Option (Option _)`: the outer layer is
key presence, the inner layer nullability.
-/

set_option maxRecDepth 8000

namespace Showdown

/-- Text is embedded as a list of characters. -/
abbrev Str := List Char

/-- The GBA button vocabulary, from `GBAButton` in src (types/emulator).
`WAIT` is the coordinator-only convention for "no input". -/
inductive GBAButton where
  | A | B | START | SELECT | UP | DOWN | LEFT | RIGHT | L | R | WAIT
  deriving DecidableEq, Repr, Fintype

/-- The per-button confidence table returned by the decision model, one
rational score per button (`confidenceScoresSchema` in
src/lib/workflows/game-loop/steps.ts, each field constrained to 0..1 by
the zod schema). -/
structure ConfidenceScores where
  A : ℚ
  B : ℚ
  START : ℚ
  SELECT : ℚ
  UP : ℚ
  DOWN : ℚ
  LEFT : ℚ
  RIGHT : ℚ
  L : ℚ
  R : ℚ
  WAIT : ℚ
  deriving DecidableEq, Repr

/-- Score lookup for a single button. -/
def scoreOf (cs : ConfidenceScores) : GBAButton → ℚ
  | .A => cs.A
  | .B => cs.B
  | .START => cs.START
  | .SELECT => cs.SELECT
  | .UP => cs.UP
  | .DOWN => cs.DOWN
  | .LEFT => cs.LEFT
  | .RIGHT => cs.RIGHT
  | .L => cs.L
  | .R => cs.R
  | .WAIT => cs.WAIT

/-- `Object.entries(scores)`: the (button, score) pairs in the fixed key
order of the zod schema object. -/
def entriesList (cs : ConfidenceScores) : List (GBAButton × ℚ) :=
  [(.A, cs.A), (.B, cs.B), (.START, cs.START), (.SELECT, cs.SELECT),
   (.UP, cs.UP), (.DOWN, cs.DOWN), (.LEFT, cs.LEFT), (.RIGHT, cs.RIGHT),
   (.L, cs.L), (.R, cs.R), (.WAIT, cs.WAIT)]

/-- One step of the `entries.reduce` argmax in `analyzeFrameAndDecide`:
keep the incumbent unless the new entry scores strictly higher. -/
def pickBetter (b e : GBAButton × ℚ) : GBAButton × ℚ :=
  if e.2 > b.2 then e else b

/-- The argmax computation of `analyzeFrameAndDecide`
(src/lib/workflows/game-loop/steps.ts lines 479-482): reduce over the
entries with initial accumulator `{ button: 'A', score: -1 }`. -/
def bestOf (cs : ConfidenceScores) : GBAButton × ℚ :=
  (entriesList cs).foldl pickBetter (GBAButton.A, -1)

/-- A schema-accepted table has every score in the interval 0..1
(`z.number().min(0).max(1)` on each button). -/
def ValidScores (cs : ConfidenceScores) : Prop :=
  ∀ b, 0 ≤ scoreOf cs b ∧ scoreOf cs b ≤ 1

instance : DecidablePred ValidScores := fun _ =>
  inferInstanceAs (Decidable (∀ _, _ ∧ _))

theorem foldl_pickBetter_mem (l : List (GBAButton × ℚ)) (init : GBAButton × ℚ) :
    l.foldl pickBetter init = init ∨ l.foldl pickBetter init ∈ l := by
  induction l generalizing init with
  | nil => exact Or.inl rfl
  | cons a l ih =>
    rcases ih (pickBetter init a) with h | h
    · rw [List.foldl_cons, h]
      unfold pickBetter
      split
      · exact Or.inr (List.mem_cons_self _ _)
      · exact Or.inl rfl
    · exact Or.inr (List.mem_cons_of_mem _ h)

theorem le_foldl_pickBetter (l : List (GBAButton × ℚ)) (init : GBAButton × ℚ) :
    init.2 ≤ (l.foldl pickBetter init).2 := by
  induction l generalizing init with
  | nil => exact le_refl _
  | cons a l ih =>
    rw [List.foldl_cons]
    refine le_trans ?_ (ih (pickBetter init a))
    unfold pickBetter
    split
    · exact le_of_lt (by assumption)
    · exact le_refl _

theorem mem_le_foldl_pickBetter (l : List (GBAButton × ℚ)) (init : GBAButton × ℚ) :
    ∀ x ∈ l, x.2 ≤ (l.foldl pickBetter init).2 := by
  induction l generalizing init with
  | nil => intro x hx; cases hx
  | cons a l ih =>
    intro x hx
    rw [List.foldl_cons]
    rcases List.mem_cons.mp hx with rfl | hx
    · refine le_trans ?_ (le_foldl_pickBetter l (pickBetter init x))
      unfold pickBetter
      split
      · exact le_refl _
      · exact le_of_not_lt (by assumption)
    · exact ih (pickBetter init a) x hx

theorem entriesList_snd (cs : ConfidenceScores) :
    ∀ p ∈ entriesList cs, p.2 = scoreOf cs p.1 := by
  intro p hp
  simp only [entriesList, List.mem_cons, List.not_mem_nil, or_false] at hp
  rcases hp with rfl | rfl | rfl | rfl | rfl | rfl | rfl | rfl | rfl | rfl | rfl <;> rfl

theorem mem_entriesList (cs : ConfidenceScores) (b : GBAButton) :
    (b, scoreOf cs b) ∈ entriesList cs := by
  unfold entriesList
  cases b
  · exact .head _
  · exact .tail _ (.head _)
  · exact .tail _ (.tail _ (.head _))
  · exact .tail _ (.tail _ (.tail _ (.head _)))
  · exact .tail _ (.tail _ (.tail _ (.tail _ (.head _))))
  · exact .tail _ (.tail _ (.tail _ (.tail _ (.tail _ (.head _)))))
  · exact .tail _ (.tail _ (.tail _ (.tail _ (.tail _ (.tail _ (.head _))))))
  · exact .tail _ (.tail _ (.tail _ (.tail _ (.tail _ (.tail _ (.tail _ (.head _)))))))
  · exact .tail _ (.tail _ (.tail _ (.tail _ (.tail _ (.tail _ (.tail _ (.tail _ (.head _))))))))
  · exact .tail _ (.tail _ (.tail _ (.tail _ (.tail _ (.tail _ (.tail _ (.tail _ (.tail _
      (.head _)))))))))
  · exact .tail _ (.tail _ (.tail _ (.tail _ (.tail _ (.tail _ (.tail _ (.tail _ (.tail _
      (.tail _ (.head _))))))))))

/-- Every button's score is bounded by the reduced best score. -/
theorem scoreOf_le_bestOf (cs : ConfidenceScores) (b : GBAButton) :
    scoreOf cs b ≤ (bestOf cs).2 :=
  mem_le_foldl_pickBetter _ _ _ (mem_entriesList cs b)

/-- On a non-negative table, the reduce result is an actual entry: its
score field is the score of its button field. -/
theorem bestOf_score_eq (cs : ConfidenceScores) (h : 0 ≤ scoreOf cs GBAButton.A) :
    scoreOf cs (bestOf cs).1 = (bestOf cs).2 := by
  rcases foldl_pickBetter_mem (entriesList cs) (GBAButton.A, -1) with hmem | hmem
  · exfalso
    have hA : scoreOf cs GBAButton.A ≤ (bestOf cs).2 := scoreOf_le_bestOf cs GBAButton.A
    rw [bestOf] at hA
    rw [hmem] at hA
    simp only at hA
    linarith
  · exact (entriesList_snd cs _ hmem).symm

/-! ### Structured notes data model (src/lib/memstash.ts) -/

/-- Recovery strategies, from the `stuckMode` enum of `StructuredNotes`. -/
inductive StuckMode where
  | none | perimeter_scan | wall_hug | backtrack
  deriving DecidableEq, Repr

/-- `StructuredNotes` from src/lib/memstash.ts.  Every schema field is
optional and nullable in TypeScript, embedded as `Option (Option _)`
(outer layer: key present, inner layer: non-null).  `_legacyText` is
optional but never null. -/
structure StructuredNotes where
  currentObjective : Option (Option Str) := none
  lastKnownLocation : Option (Option Str) := none
  exitFound : Option (Option Str) := none
  stuckMode : Option (Option StuckMode) := none
  failedAttempts : Option (Option (List Str)) := none
  importantDiscovery : Option (Option Str) := none
  general : Option (Option Str) := none
  _legacyText : Option Str := none
  deriving DecidableEq, Repr

/-- The empty notes object `{}`. -/
def emptyNotes : StructuredNotes := {}

/-! ### Decision step (src/lib/workflows/game-loop/steps.ts) -/

/-- Token usage of a model call. -/
structure Usage where
  promptTokens : ℕ
  completionTokens : ℕ
  totalTokens : ℕ
  deriving DecidableEq, Repr

/-- One step of the executed button sequence: `{ button, confidence }`. -/
structure SeqStep where
  button : GBAButton
  confidence : ℚ
  deriving DecidableEq, Repr

/-- The `decision` object of `GameLoopOutput`.  The source also carries a
wall-clock `timestamp: Date.now()`, which has no counterpart in a pure
embedding and is omitted. -/
structure AIDecision where
  button : GBAButton
  reasoning : Str
  screenAnalysis : Option Str
  confidence : ℚ
  personality_comment : Option Str
  confidenceScores : ConfidenceScores
  progressConfidence : ℚ
  buttonSequence : List SeqStep
  isFallback : Bool
  deriving DecidableEq, Repr

/-- The output of `analyzeFrameAndDecide`.  The `gameState` component of
the source's `GameLoopOutput` is an orthogonal pass-through of the
model's game-state estimate and is not needed by any claim; it is not
embedded. -/
structure GameLoopOutput where
  decision : AIDecision
  usage : Usage
  deriving DecidableEq, Repr

/-- A decision-phase model reply already accepted by the zod schema
(`decisionSchema` in steps.ts): the sequence is a list of full 11-button
confidence tables; the schema also enforces `min(1)` on its length and
0..1 bounds on every score, which the theorems below take as
hypotheses. -/
structure DecisionResponse where
  screenAnalysis : Str
  reasoning : Str
  personality_comment : Option Str
  buttonSequence : List ConfidenceScores
  progressConfidence : ℚ
  notes : Option StructuredNotes
  usage : Usage
  deriving DecidableEq, Repr

/-- The ways a decision-phase invocation can fail: a model/network error,
a schema validation failure, or the 60s `AbortSignal` timeout.  All are
thrown as exceptions and handled by the same catch block. -/
inductive DecisionFailure where
  | modelError | schemaFailure | timeout
  deriving DecidableEq, Repr

/-- The fixed low-confidence table of the fallback decision
(steps.ts line 162). -/
def fallbackScores : ConfidenceScores :=
  { A := 1/5, B := 1/5, START := 1/10, SELECT := 1/10, UP := 1/5, DOWN := 1/5,
    LEFT := 1/5, RIGHT := 1/5, L := 1/10, R := 1/10, WAIT := 1/2 }

/-- Reasoning string of the fallback decision. -/
def fallbackReasoning : Str :=
  "Fallback: waiting due to parsing error - no action taken".toList

/-- `createFallbackDecision` (steps.ts lines 156-171): the canonical WAIT
decision returned on any decision-phase failure, with estimated token
usage so cost accounting still happens. -/
def createFallbackDecision (estimatedPromptTokens : ℕ) : GameLoopOutput :=
  { decision :=
      { button := .WAIT
        reasoning := fallbackReasoning
        screenAnalysis := Option.none
        confidence := 1/2
        personality_comment := some []
        confidenceScores := fallbackScores
        progressConfidence := 3/10
        buttonSequence := [⟨.WAIT, 1/2⟩]
        isFallback := true }
    usage :=
      { promptTokens := estimatedPromptTokens
        completionTokens := 100
        totalTokens := estimatedPromptTokens + 100 } }

/-- `SEQUENCE_THRESHOLD = 0.85` (steps.ts line 453). -/
def SEQUENCE_THRESHOLD : ℚ := 85/100

/-- The loop of steps.ts lines 464-490 that builds `buttonsToExecute`:
the first step's argmax always enters the plan; later steps enter only
while their argmax confidence meets the threshold, and the loop breaks
at the first step below it.  (The source's guards for a null or empty
scores object are unreachable for schema-accepted replies, where every
element is a full table.) -/
def buttonsToExecuteGo : List (GBAButton × ℚ) → List ConfidenceScores → List (GBAButton × ℚ)
  | acc, [] => acc
  | acc, scores :: rest =>
      if acc.isEmpty = true ∨ SEQUENCE_THRESHOLD ≤ (bestOf scores).2 then
        buttonsToExecuteGo (acc ++ [bestOf scores]) rest
      else acc

/-- The derived execution plan for a button sequence. -/
def buttonsToExecute (seq : List ConfidenceScores) : List (GBAButton × ℚ) :=
  buttonsToExecuteGo [] seq

theorem buttonsToExecuteGo_of_ne_nil (rest : List ConfidenceScores) :
    ∀ acc : List (GBAButton × ℚ), acc ≠ [] →
      buttonsToExecuteGo acc rest =
        acc ++ (rest.map bestOf).takeWhile (fun p => decide (SEQUENCE_THRESHOLD ≤ p.2)) := by
  induction rest with
  | nil => intro acc _; simp [buttonsToExecuteGo]
  | cons s rest ih =>
    intro acc hacc
    rw [buttonsToExecuteGo]
    have hne : acc.isEmpty = false := by
      cases acc with
      | nil => exact absurd rfl hacc
      | cons a t => rfl
    by_cases h85 : SEQUENCE_THRESHOLD ≤ (bestOf s).2
    · rw [if_pos (Or.inr h85)]
      rw [ih (acc ++ [bestOf s]) (by simp)]
      rw [List.map_cons, List.takeWhile_cons_of_pos (by simpa using h85)]
      simp
    · rw [if_neg (by simp [hne, h85])]
      rw [List.map_cons, List.takeWhile_cons_of_neg (by simpa using h85)]
      simp

theorem buttonsToExecute_cons (s : ConfidenceScores) (rest : List ConfidenceScores) :
    buttonsToExecute (s :: rest) =
      bestOf s :: (rest.map bestOf).takeWhile (fun p => decide (SEQUENCE_THRESHOLD ≤ p.2)) := by
  rw [buttonsToExecute, buttonsToExecuteGo,
    if_pos (Or.inl (show ([] : List (GBAButton × ℚ)).isEmpty = true from rfl))]
  rw [List.nil_append, buttonsToExecuteGo_of_ne_nil rest [bestOf s] (by simp)]
  simp

/-- `analyzeFrameAndDecide` (steps.ts lines 215-543), restricted to the
response processing the claims are about.  The input is the outcome of
the structured-output model call: an exception (model error, schema
violation or timeout) or a schema-accepted reply.  The persistence side
effects (`appendMemStash` of the notes delta, `appendDecisionLog`) act
on the memory store and are embedded separately below. -/
def analyzeFrameAndDecide (resp : Except DecisionFailure DecisionResponse) : GameLoopOutput :=
  match resp with
  | .error _ => createFallbackDecision 1500
  | .ok r =>
    match r.buttonSequence with
    | [] => createFallbackDecision 1500
    | s₁ :: rest =>
      match buttonsToExecute (s₁ :: rest) with
      | [] => createFallbackDecision 1500
      | primary :: restPlan =>
          { decision :=
              { button := primary.1
                reasoning := r.reasoning
                screenAnalysis := some r.screenAnalysis
                confidence := primary.2
                personality_comment := r.personality_comment
                confidenceScores := s₁
                progressConfidence := r.progressConfidence
                buttonSequence := (primary :: restPlan).map (fun p => ⟨p.1, p.2⟩)
                isFallback := false }
            usage := r.usage }

/-- Closed form of the success path of `analyzeFrameAndDecide` for a
reply whose sequence is non-empty. -/
theorem analyzeFrameAndDecide_ok (r : DecisionResponse) (s₁ : ConfidenceScores)
    (rest : List ConfidenceScores) (hseq : r.buttonSequence = s₁ :: rest) :
    analyzeFrameAndDecide (.ok r) =
      { decision :=
          { button := (bestOf s₁).1
            reasoning := r.reasoning
            screenAnalysis := some r.screenAnalysis
            confidence := (bestOf s₁).2
            personality_comment := r.personality_comment
            confidenceScores := s₁
            progressConfidence := r.progressConfidence
            buttonSequence := (bestOf s₁ :: (rest.map bestOf).takeWhile
                (fun p => decide (SEQUENCE_THRESHOLD ≤ p.2))).map
              (fun p => ⟨p.1, p.2⟩)
            isFallback := false }
        usage := r.usage } := by
  simp only [analyzeFrameAndDecide, hseq, buttonsToExecute_cons]

/-- C1: for every decision-phase model response accepted by the schema,
the decision's executed `button` and `confidence` equal the button with
the highest confidence in step 1 of `buttonSequence` and that highest
value, and the full step-1 table is preserved as `confidenceScores`. -/
theorem C1_button_confidence_argmax_of_step1
    (r : DecisionResponse) (s₁ : ConfidenceScores) (rest : List ConfidenceScores)
    (hseq : r.buttonSequence = s₁ :: rest) (hvalid : ValidScores s₁) :
    scoreOf s₁ (analyzeFrameAndDecide (.ok r)).decision.button =
        (analyzeFrameAndDecide (.ok r)).decision.confidence
    ∧ (∀ b, scoreOf s₁ b ≤ (analyzeFrameAndDecide (.ok r)).decision.confidence)
    ∧ (analyzeFrameAndDecide (.ok r)).decision.confidenceScores = s₁ := by
  rw [analyzeFrameAndDecide_ok r s₁ rest hseq]
  refine ⟨bestOf_score_eq s₁ (hvalid .A).1, fun b => scoreOf_le_bestOf s₁ b, rfl⟩

/-- Witness for C1 at a concrete schema-accepted response. -/
theorem C1_button_confidence_argmax_of_step1_witness :
    scoreOf ⟨9/10, 1/10, 0, 0, 1/2, 1/2, 1/2, 1/2, 0, 0, 1/5⟩
        (analyzeFrameAndDecide (.ok
          { screenAnalysis := []
            reasoning := []
            personality_comment := Option.none
            buttonSequence := [⟨9/10, 1/10, 0, 0, 1/2, 1/2, 1/2, 1/2, 0, 0, 1/5⟩]
            progressConfidence := 1/2
            notes := Option.none
            usage := ⟨10, 10, 20⟩ })).decision.button =
      (analyzeFrameAndDecide (.ok
          { screenAnalysis := []
            reasoning := []
            personality_comment := Option.none
            buttonSequence := [⟨9/10, 1/10, 0, 0, 1/2, 1/2, 1/2, 1/2, 0, 0, 1/5⟩]
            progressConfidence := 1/2
            notes := Option.none
            usage := ⟨10, 10, 20⟩ })).decision.confidence :=
  (C1_button_confidence_argmax_of_step1 _ _ [] rfl
    (by intro b; cases b <;> constructor <;> norm_num [scoreOf])).1

/-- C2: for a schema-accepted response, the derived execution plan
starts with step 1's argmax button (with its argmax value); every later
plan entry has argmax confidence at or above the 0.85 threshold; the
plan's tail is exactly the longest prefix of the remaining steps' argmax
entries meeting the threshold (the first step below it terminates the
plan); and for every possible outcome of the call, the plan has at least
one element, the single-step WAIT fallback when derivation fails. -/
theorem C2_sequence_derivation
    (r : DecisionResponse) (s₁ : ConfidenceScores) (rest : List ConfidenceScores)
    (hseq : r.buttonSequence = s₁ :: rest) (hvalid : ValidScores s₁) :
    ((analyzeFrameAndDecide (.ok r)).decision.buttonSequence.head? =
        some ⟨(bestOf s₁).1, (bestOf s₁).2⟩
      ∧ scoreOf s₁ (bestOf s₁).1 = (bestOf s₁).2
      ∧ (∀ b, scoreOf s₁ b ≤ (bestOf s₁).2))
    ∧ (∀ step ∈ (analyzeFrameAndDecide (.ok r)).decision.buttonSequence.tail,
        SEQUENCE_THRESHOLD ≤ step.confidence)
    ∧ ((analyzeFrameAndDecide (.ok r)).decision.buttonSequence.tail =
        ((rest.map bestOf).takeWhile (fun p => decide (SEQUENCE_THRESHOLD ≤ p.2))).map
          (fun p => ⟨p.1, p.2⟩))
    ∧ (∀ resp, (analyzeFrameAndDecide resp).decision.buttonSequence ≠ [])
    ∧ (∀ r' : DecisionResponse, r'.buttonSequence = [] →
        (analyzeFrameAndDecide (.ok r')).decision.buttonSequence =
          [⟨GBAButton.WAIT, 1/2⟩]) := by
  rw [analyzeFrameAndDecide_ok r s₁ rest hseq]
  refine ⟨⟨rfl, bestOf_score_eq s₁ (hvalid .A).1, fun b => scoreOf_le_bestOf s₁ b⟩,
    ?_, ?_, ?_, ?_⟩
  · intro step hstep
    simp only [List.map_cons, List.tail_cons, List.mem_map] at hstep
    obtain ⟨p, hp, rfl⟩ := hstep
    have := List.mem_takeWhile_imp hp
    simpa using this
  · simp
  · intro resp
    match resp with
    | .error e => simp [analyzeFrameAndDecide, createFallbackDecision]
    | .ok r' =>
      match hr' : r'.buttonSequence with
      | [] => simp [analyzeFrameAndDecide, hr', createFallbackDecision]
      | s :: t =>
        rw [analyzeFrameAndDecide_ok r' s t hr']
        simp
  · intro r' hr'
    simp [analyzeFrameAndDecide, hr', createFallbackDecision]

/-- Witness for C2 at a concrete three-step sequence: the second step's
argmax (0.9) meets the threshold and enters the plan, the third (0.5)
terminates it. -/
theorem C2_sequence_derivation_witness :
    (analyzeFrameAndDecide (.ok
        { screenAnalysis := []
          reasoning := []
          personality_comment := Option.none
          buttonSequence :=
            [⟨9/10, 1/10, 0, 0, 1/2, 1/2, 1/2, 1/2, 0, 0, 1/5⟩,
             ⟨0, 9/10, 0, 0, 0, 0, 0, 0, 0, 0, 0⟩,
             ⟨0, 0, 0, 0, 1/2, 0, 0, 0, 0, 0, 0⟩]
          progressConfidence := 1/2
          notes := Option.none
          usage := ⟨10, 10, 20⟩ })).decision.buttonSequence.tail =
      (([⟨0, 9/10, 0, 0, 0, 0, 0, 0, 0, 0, 0⟩,
         ⟨0, 0, 0, 0, 1/2, 0, 0, 0, 0, 0, 0⟩].map bestOf).takeWhile
          (fun p => decide (SEQUENCE_THRESHOLD ≤ p.2))).map (fun p => ⟨p.1, p.2⟩) :=
  (C2_sequence_derivation _ _ _ rfl
    (by intro b; cases b <;> constructor <;> norm_num [scoreOf])).2.2.1

/-- C3: every decision-phase invocation that ends in a model error, a
schema validation failure, or a timeout returns the fallback decision:
button WAIT, confidence 0.5, a low-confidence table favoring WAIT, a
single-step WAIT sequence, `isFallback = true`, and an estimated usage
of 1500 prompt plus 100 completion tokens so cost is still charged. -/
theorem C3_fallback_on_failure (e : DecisionFailure) :
    analyzeFrameAndDecide (.error e) = createFallbackDecision 1500
    ∧ (createFallbackDecision 1500).decision.button = GBAButton.WAIT
    ∧ (createFallbackDecision 1500).decision.confidence = 1/2
    ∧ scoreOf (createFallbackDecision 1500).decision.confidenceScores GBAButton.WAIT = 1/2
    ∧ (∀ b, b ≠ GBAButton.WAIT →
        scoreOf (createFallbackDecision 1500).decision.confidenceScores b <
          scoreOf (createFallbackDecision 1500).decision.confidenceScores GBAButton.WAIT)
    ∧ (createFallbackDecision 1500).decision.buttonSequence = [⟨GBAButton.WAIT, 1/2⟩]
    ∧ (createFallbackDecision 1500).decision.isFallback = true
    ∧ (createFallbackDecision 1500).usage.promptTokens = 1500
    ∧ (createFallbackDecision 1500).usage.completionTokens = 100
    ∧ (createFallbackDecision 1500).usage.totalTokens = 1600 := by
  refine ⟨rfl, rfl, rfl, rfl, ?_, rfl, rfl, rfl, rfl, rfl⟩
  intro b hb
  cases b <;> first
    | exact absurd rfl hb
    | norm_num [createFallbackDecision, fallbackScores, scoreOf]

/-- Witness for C3 at the timeout failure. -/
theorem C3_fallback_on_failure_witness :
    analyzeFrameAndDecide (.error DecisionFailure.timeout) = createFallbackDecision 1500
    ∧ scoreOf (createFallbackDecision 1500).decision.confidenceScores GBAButton.A <
        scoreOf (createFallbackDecision 1500).decision.confidenceScores GBAButton.WAIT :=
  ⟨(C3_fallback_on_failure .timeout).1,
   (C3_fallback_on_failure .timeout).2.2.2.2.1 GBAButton.A (by simp)⟩

/-! ### Frame fingerprint and change detection
(src/lib/game-knowledge.ts `simpleFrameHash`, src/components/agent/agent-card.tsx
lines 252-257) -/

/-- Visual-change classification of a frame against its predecessor. -/
inductive VisualChange where
  | first_frame | change_detected | no_change
  deriving DecidableEq, Repr

/-- The sampled character codes of a base64 payload: the loop
`for (let i = 0; i < base64.length; i += 1000)` reads the code at every
multiple of 1000 below the length.  (The source first takes the part of
the data URL after the comma; frames are embedded directly as that
payload's character codes.) -/
def sampledChars (payload : List ℕ) : List ℕ :=
  (List.range ((payload.length + 999) / 1000)).map (fun k => payload.getD (1000 * k) 0)

/-- JavaScript `x | 0`-style coercion produced by `hash & hash`: reduce
modulo 2^32 and reinterpret as a signed 32-bit value. -/
def toInt32 (n : ℤ) : ℤ :=
  let m := n % 4294967296
  if m < 2147483648 then m else m - 4294967296

/-- One step of the rolling hash:
`hash = ((hash << 5) - hash) + code; hash = hash & hash`.  The shift
operates on the 32-bit view of `hash`; the subtraction and addition are
exact in doubles at these magnitudes. -/
def hashStep (h : ℤ) (c : ℕ) : ℤ :=
  toInt32 (toInt32 (h * 32) - h + c)

/-- `simpleFrameHash`: roll the 32-bit hash over the sampled character
codes starting from 0.  The source renders the result with
`toString(16)`, which is injective on 32-bit values, so fingerprint
equality is equality of these integers. -/
def simpleFrameHash (payload : List ℕ) : ℤ :=
  (sampledChars payload).foldl hashStep 0

/-- The classification in `processFrame` (agent-card.tsx lines 254-256):
no previous hash means `first_frame`; an equal hash means `no_change`;
otherwise `change_detected`. -/
def classifyVisualChange (prevHash : Option ℤ) (currHash : ℤ) : VisualChange :=
  match prevHash with
  | Option.none => .first_frame
  | some p => if p = currHash then .no_change else .change_detected

/-- C6: frames that agree at every sampled position (stride 1000) have
equal fingerprints, and a non-first frame whose fingerprint equals the
previous frame's fingerprint is classified `no_change`. -/
theorem C6_fingerprint_equality
    (f1 f2 : List ℕ) (h : sampledChars f1 = sampledChars f2) :
    simpleFrameHash f1 = simpleFrameHash f2
    ∧ (∀ prev curr : ℤ, prev = curr →
        classifyVisualChange (some prev) curr = VisualChange.no_change) := by
  constructor
  · rw [simpleFrameHash, simpleFrameHash, h]
  · rintro p c rfl
    simp [classifyVisualChange]

/-- Witness for C6: two distinct two-character payloads that agree at
the single sampled position hash identically. -/
theorem C6_fingerprint_equality_witness :
    sampledChars [65, 66] = sampledChars [65, 67]
    ∧ [65, 66] ≠ ([65, 67] : List ℕ)
    ∧ simpleFrameHash [65, 66] = simpleFrameHash [65, 67] :=
  ⟨by decide, by decide, (C6_fingerprint_equality _ _ (by decide)).1⟩

/-! ### Button ban policy (src/components/agent/agent-card.tsx) -/

/-- The coordinator-side ban bookkeeping: per-button total press counts
(`buttonPressCountRef`) and the banned map `bannedButtons`
(button to prompts-remaining; an absent key is 0). -/
structure BanState where
  buttonPressCount : GBAButton → ℕ
  bannedButtons : GBAButton → ℕ

/-- Per executed button press (agent-card.tsx lines 383-391): increment
the total count; at 10 or more, set the banned counter to 2 and reset
the total count. -/
def trackPress (st : BanState) (btn : GBAButton) : BanState :=
  let c := st.buttonPressCount btn + 1
  if 10 ≤ c then
    { buttonPressCount := Function.update st.buttonPressCount btn 0
      bannedButtons := Function.update st.bannedButtons btn 2 }
  else
    { st with buttonPressCount := Function.update st.buttonPressCount btn c }

/-- The decrement run after each prompt's execution loop (agent-card.tsx
lines 404-411): keep an entry only while its counter exceeds 1,
decremented; all other entries are evicted. -/
def decrementBans (m : GBAButton → ℕ) : GBAButton → ℕ :=
  fun b => if 1 < m b then m b - 1 else 0

/-- Processing of one full prompt: every executed button of the decision
is tracked, then the banned counters are decremented once. -/
def processPromptBans (executed : List GBAButton) (st : BanState) : BanState :=
  let st' := executed.foldl trackPress st
  { st' with bannedButtons := decrementBans st'.bannedButtons }

/-- The button universe, in vocabulary order. -/
def allButtons : List GBAButton :=
  [.A, .B, .START, .SELECT, .UP, .DOWN, .LEFT, .RIGHT, .L, .R, .WAIT]

/-- The `bannedButtons` list included in the next decide request
(agent-card.tsx line 225): keys with a positive counter. -/
def bannedSent (st : BanState) : List GBAButton :=
  allButtons.filter (fun b => decide (0 < st.bannedButtons b))

/-- Fresh per-run state: all counters empty. -/
def initBanState : BanState := ⟨fun _ => 0, fun _ => 0⟩

/-- A run of consecutive prompts, each given by its executed buttons. -/
def runPromptsBans (prompts : List (List GBAButton)) (st : BanState) : BanState :=
  prompts.foldl (fun s ex => processPromptBans ex s) st

/-- C4 evidence: in a run of 10 prompts each executing a single A press,
the 10th press triggers the ban (counter set to 2, total count reset),
but the end-of-prompt decrement of that same prompt already consumes one
unit.  A is therefore in the `bannedButtons` list sent with prompt 11
only; after prompt 11's decrement it is evicted, so prompt 12's list is
empty.  The ban window is one prompt, not the two that the code's own
comment, debug log and model-facing warning state. -/
theorem C4_ban_window_is_one_prompt :
    (runPromptsBans (List.replicate 10 [GBAButton.A]) initBanState).buttonPressCount
        GBAButton.A = 0
    ∧ (runPromptsBans (List.replicate 10 [GBAButton.A]) initBanState).bannedButtons
        GBAButton.A = 1
    ∧ bannedSent (runPromptsBans (List.replicate 10 [GBAButton.A]) initBanState) =
        [GBAButton.A]
    ∧ bannedSent (processPromptBans [GBAButton.B]
        (runPromptsBans (List.replicate 10 [GBAButton.A]) initBanState)) = [] := by
  refine ⟨by decide, by decide, by decide, by decide⟩

/-! ### No-change penalty (src/components/agent/agent-card.tsx lines 274-311) -/

/-- `newScores[btn] = v`: overwrite one button's entry of a table. -/
def setScore (cs : ConfidenceScores) (b : GBAButton) (v : ℚ) : ConfidenceScores :=
  match b with
  | .A => { cs with A := v }
  | .B => { cs with B := v }
  | .START => { cs with START := v }
  | .SELECT => { cs with SELECT := v }
  | .UP => { cs with UP := v }
  | .DOWN => { cs with DOWN := v }
  | .LEFT => { cs with LEFT := v }
  | .RIGHT => { cs with RIGHT := v }
  | .L => { cs with L := v }
  | .R => { cs with R := v }
  | .WAIT => { cs with WAIT := v }

theorem scoreOf_setScore (cs : ConfidenceScores) (b : GBAButton) (v : ℚ) :
    scoreOf (setScore cs b v) b = v := by
  cases b <;> rfl

/-- The coordinator state feeding the next prompt: per-button
consecutive no-change counters (`noChangeCountRef`), the
`buttonsToAvoid` list, and the adjusted previous confidence table
(`confidenceScores`, sent as `previousConfidenceScores` with the next
request). -/
structure AvoidState where
  noChangeCount : GBAButton → ℕ
  buttonsToAvoid : List GBAButton
  confidenceScores : ConfidenceScores

/-- Processing of one decision outcome (agent-card.tsx lines 274-311).
`lastBtn` is the button the visual change is attributed to
(`lastButtonRef`, the previous decision's button), `vc` the frame-hash
classification, `modelScores` the fresh `decision.confidenceScores` of
the reply.  On `no_change`: increment the button's counter; at five or
more, hard-penalize the button to 0.2 in the stored table; counters one
to four add the button to `buttonsToAvoid` (once).  On
`change_detected`: clear the counter and remove the button from the
list. -/
def processOutcome (st : AvoidState) (lastBtn : Option GBAButton)
    (vc : VisualChange) (modelScores : ConfidenceScores) : AvoidState :=
  match vc, lastBtn with
  | .no_change, some btn =>
      { noChangeCount := Function.update st.noChangeCount btn (st.noChangeCount btn + 1)
        buttonsToAvoid :=
          if 1 ≤ st.noChangeCount btn + 1 ∧ st.noChangeCount btn + 1 < 5
              ∧ btn ∉ st.buttonsToAvoid then
            st.buttonsToAvoid ++ [btn]
          else st.buttonsToAvoid
        confidenceScores :=
          if 5 ≤ st.noChangeCount btn + 1 then setScore modelScores btn (1/5)
          else modelScores }
  | .change_detected, some btn =>
      { noChangeCount := Function.update st.noChangeCount btn 0
        buttonsToAvoid := st.buttonsToAvoid.filter (fun b => decide (b ≠ btn))
        confidenceScores := modelScores }
  | _, _ => { st with confidenceScores := modelScores }

/-- Fresh per-run state. -/
def initAvoidState (scores : ConfidenceScores) : AvoidState := ⟨fun _ => 0, [], scores⟩

/-- A run of decision outcomes, oldest first. -/
def runOutcomes (hist : List (Option GBAButton × VisualChange × ConfidenceScores))
    (st : AvoidState) : AvoidState :=
  hist.foldl (fun s step => processOutcome s step.1 step.2.1 step.2.2) st

/-- Invariant tying the counters to the avoid list: a button with a
positive consecutive no-change counter is on the list. -/
def AvoidInv (st : AvoidState) : Prop :=
  ∀ b, 1 ≤ st.noChangeCount b → b ∈ st.buttonsToAvoid

theorem avoidInv_processOutcome (st : AvoidState) (lb : Option GBAButton)
    (vc : VisualChange) (ms : ConfidenceScores) (hinv : AvoidInv st) :
    AvoidInv (processOutcome st lb vc ms) := by
  cases vc with
  | first_frame => cases lb <;> exact hinv
  | change_detected =>
    cases lb with
    | none => exact hinv
    | some btn =>
      intro b hb
      simp only [processOutcome, Function.update] at hb ⊢
      by_cases hbb : b = btn
      · subst hbb; simp at hb
      · simp only [hbb] at hb
        rw [List.mem_filter]
        refine ⟨hinv b (by simpa using hb), by simp [hbb]⟩
  | no_change =>
    cases lb with
    | none => exact hinv
    | some btn =>
      intro b hb
      simp only [processOutcome, Function.update] at hb ⊢
      by_cases hbb : b = btn
      · subst hbb
        split
        · exact List.mem_append_right _ (List.mem_singleton_self b)
        · rename_i hcond
          push_neg at hcond
          rcases Nat.lt_or_ge (st.noChangeCount b + 1) 5 with h5 | h5
          · exact hcond (Nat.le_add_left 1 _) h5
          · exact hinv b (by omega)
      · simp only [hbb] at hb
        have hmem := hinv b (by simpa using hb)
        split
        · exact List.mem_append_left _ hmem
        · exact hmem

theorem avoidInv_runOutcomes
    (hist : List (Option GBAButton × VisualChange × ConfidenceScores))
    (st : AvoidState) (hinv : AvoidInv st) : AvoidInv (runOutcomes hist st) := by
  induction hist generalizing st with
  | nil => exact hinv
  | cons step hist ih =>
    exact ih _ (avoidInv_processOutcome st step.1 step.2.1 step.2.2 hinv)

/-- C5: in any reachable coordinator state, an outcome that brings a
button's consecutive no-change counter to five or more stores 0.2 for
that button in the table sent as the next prompt's previous confidence
scores and keeps the button in `buttonsToAvoid`; and any
`change_detected` outcome attributed to a button clears its counter and
removes it from `buttonsToAvoid`. -/
theorem C5_no_change_penalty
    (hist : List (Option GBAButton × VisualChange × ConfidenceScores))
    (init scores : ConfidenceScores) (b : GBAButton)
    (h4 : 4 ≤ (runOutcomes hist (initAvoidState init)).noChangeCount b) :
    scoreOf (processOutcome (runOutcomes hist (initAvoidState init)) (some b)
        .no_change scores).confidenceScores b = 1/5
    ∧ b ∈ (processOutcome (runOutcomes hist (initAvoidState init)) (some b)
        .no_change scores).buttonsToAvoid
    ∧ (∀ (st : AvoidState) (cs : ConfidenceScores),
        (processOutcome st (some b) .change_detected cs).noChangeCount b = 0
        ∧ b ∉ (processOutcome st (some b) .change_detected cs).buttonsToAvoid) := by
  have hinv : AvoidInv (runOutcomes hist (initAvoidState init)) := by
    refine avoidInv_runOutcomes hist _ ?_
    intro b hb
    simp [initAvoidState] at hb
  refine ⟨?_, ?_, ?_⟩
  · simp only [processOutcome]
    rw [if_pos (by omega), scoreOf_setScore]
  · have hmem := hinv b (by omega)
    simp only [processOutcome]
    split
    · exact List.mem_append_left _ hmem
    · exact hmem
  · intro st cs
    constructor
    · simp [processOutcome, Function.update]
    · simp only [processOutcome]
      intro hmem
      have := (List.mem_filter.mp hmem).2
      simp at this

/-- Witness for C5: four consecutive no-change outcomes attributed to A
from a fresh run, followed by a fifth. -/
theorem C5_no_change_penalty_witness :
    scoreOf (processOutcome
        (runOutcomes (List.replicate 4
          (some GBAButton.A, VisualChange.no_change, (⟨0,0,0,0,0,0,0,0,0,0,0⟩ : ConfidenceScores)))
          (initAvoidState ⟨0,0,0,0,0,0,0,0,0,0,0⟩))
        (some GBAButton.A) .no_change ⟨0,0,0,0,0,0,0,0,0,0,0⟩).confidenceScores
      GBAButton.A = 1/5
    ∧ GBAButton.A ∈ (processOutcome
        (runOutcomes (List.replicate 4
          (some GBAButton.A, VisualChange.no_change, (⟨0,0,0,0,0,0,0,0,0,0,0⟩ : ConfidenceScores)))
          (initAvoidState ⟨0,0,0,0,0,0,0,0,0,0,0⟩))
        (some GBAButton.A) .no_change ⟨0,0,0,0,0,0,0,0,0,0,0⟩).buttonsToAvoid :=
  have h := C5_no_change_penalty
    (List.replicate 4 (some GBAButton.A, VisualChange.no_change,
      (⟨0,0,0,0,0,0,0,0,0,0,0⟩ : ConfidenceScores)))
    ⟨0,0,0,0,0,0,0,0,0,0,0⟩ ⟨0,0,0,0,0,0,0,0,0,0,0⟩ GBAButton.A (by decide)
  ⟨h.1, h.2.1⟩

/-! ### Memory store (src/lib/memstash.ts)

The redis backend is embedded as an explicit store value together with
failure flags; every primitive returns `Except`, and the memstash
functions translate the source's try/catch blocks into matches on those
results.  A function whose result type is not `Except` cannot throw to
its caller, which embeds the catch-all error policy of the module. -/

/-- One entry of the persistent decision log. -/
structure LogEntry where
  step : ℕ
  button : GBAButton
  reasoning : Str
  timestamp : ℕ
  deriving DecidableEq, Repr

/-- A value stored under the memstash key: a structured notes object or
a legacy plain string. -/
abbrev MemVal := Sum StructuredNotes Str

/-- The agent's slice of the key-value store: the memstash key and the
decision-log key (absent keys are `none`). -/
structure Store where
  memstash : Option MemVal := none
  decisionlog : Option (List LogEntry) := none
  deriving DecidableEq, Repr

/-- Which backend primitives throw. -/
structure Backend where
  getFails : Bool
  setFails : Bool
  delFails : Bool
  deriving DecidableEq, Repr

def redisGetMem (bk : Backend) (st : Store) : Except Unit (Option MemVal) :=
  if bk.getFails then .error () else .ok st.memstash

def redisSetMem (bk : Backend) (st : Store) (n : StructuredNotes) : Except Unit Store :=
  if bk.setFails then .error () else .ok { st with memstash := some (Sum.inl n) }

def redisDelMem (bk : Backend) (st : Store) : Except Unit Store :=
  if bk.delFails then .error () else .ok { st with memstash := none }

def redisGetLog (bk : Backend) (st : Store) : Except Unit (Option (List LogEntry)) :=
  if bk.getFails then .error () else .ok st.decisionlog

def redisSetLog (bk : Backend) (st : Store) (l : List LogEntry) : Except Unit Store :=
  if bk.setFails then .error () else .ok { st with decisionlog := some l }

/-- `getStructuredNotes` (memstash.ts lines 25-37): falsy content and
backend errors both yield `{}`; a legacy string is wrapped in
`_legacyText`. -/
def getStructuredNotes (bk : Backend) (st : Store) : StructuredNotes :=
  match redisGetMem bk st with
  | .error _ => {}
  | .ok Option.none => {}
  | .ok (some (Sum.inl n)) => n
  | .ok (some (Sum.inr s)) => if s.isEmpty then {} else { _legacyText := some s }

def objectiveLabel : Str := "Objective: ".toList

def locationLabel : Str := "Location: ".toList

def exitFoundLabel : Str := "Exit: ".toList

def recoveryLabel : Str := "Recovery mode: ".toList

def failedLabel : Str := "Failed: ".toList

def importantLabel : Str := "Important: ".toList

def generalLabel : Str := "Notes: ".toList

def stuckModeText : StuckMode → Str
  | .none => "none".toList
  | .perimeter_scan => "perimeter_scan".toList
  | .wall_hug => "wall_hug".toList
  | .backtrack => "backtrack".toList

/-- A line for an optional nullable string field: pushed only when the
field is present, non-null and non-empty (JavaScript truthiness). -/
def optLine (label : Str) (v : Option (Option Str)) : List Str :=
  match v with
  | some (some s) => if s.isEmpty then [] else [label ++ s]
  | _ => []

def newlineStr : Str := ['\n']

def commaSep : Str := ", ".toList

/-- `formatNotesForPrompt` (memstash.ts lines 59-70): one labelled line
per truthy field, joined by newlines. -/
def formatNotesForPrompt (notes : StructuredNotes) : Str :=
  List.intercalate newlineStr
    (optLine objectiveLabel notes.currentObjective
      ++ optLine locationLabel notes.lastKnownLocation
      ++ optLine exitFoundLabel notes.exitFound
      ++ (match notes.stuckMode with
          | some (some m) =>
              if m = StuckMode.none then [] else [recoveryLabel ++ stuckModeText m]
          | _ => [])
      ++ (match notes.failedAttempts with
          | some (some l) =>
              if l.isEmpty then [] else [failedLabel ++ List.intercalate commaSep l]
          | _ => [])
      ++ optLine importantLabel notes.importantDiscovery
      ++ optLine generalLabel notes.general
      ++ (match notes._legacyText with
          | some s => if s.isEmpty then [] else [s]
          | _ => []))

/-- `getMemStash` (memstash.ts lines 42-54): error or falsy content
yields the empty string; a structured object is formatted. -/
def getMemStash (bk : Backend) (st : Store) : Str :=
  match redisGetMem bk st with
  | .error _ => []
  | .ok Option.none => []
  | .ok (some (Sum.inl n)) => formatNotesForPrompt n
  | .ok (some (Sum.inr s)) => s

/-- `Object.keys(newNotes).length === 0`: no key of the delta is
present. -/
def isEmptyDelta (n : StructuredNotes) : Bool :=
  n.currentObjective.isNone && n.lastKnownLocation.isNone && n.exitFound.isNone &&
  n.stuckMode.isNone && n.failedAttempts.isNone && n.importantDiscovery.isNone &&
  n.general.isNone && n._legacyText.isNone

/-- `merged.failedAttempts || []`. -/
def attemptsOf (n : StructuredNotes) : List Str :=
  match n.failedAttempts with
  | some (some l) => l
  | _ => []

/-- JavaScript `arr.slice(-n)`: the last `n` elements. -/
def sliceLast (n : ℕ) (l : List α) : List α := l.drop (l.length - n)

/-- The field-by-field merge of `mergeStructuredNotes` (memstash.ts
lines 83-96): each present non-array field overwrites; a present,
non-null, non-empty `failedAttempts` delta is appended to the existing
list and cut to the last five.  The legacy `_legacyText` carrier is kept
from the existing object and never overwritten here. -/
def mergeNotesFields (existing delta : StructuredNotes) : StructuredNotes :=
  let merged : StructuredNotes :=
    { existing with
      currentObjective :=
        if delta.currentObjective.isSome then delta.currentObjective
        else existing.currentObjective
      lastKnownLocation :=
        if delta.lastKnownLocation.isSome then delta.lastKnownLocation
        else existing.lastKnownLocation
      exitFound :=
        if delta.exitFound.isSome then delta.exitFound else existing.exitFound
      stuckMode :=
        if delta.stuckMode.isSome then delta.stuckMode else existing.stuckMode
      importantDiscovery :=
        if delta.importantDiscovery.isSome then delta.importantDiscovery
        else existing.importantDiscovery
      general := if delta.general.isSome then delta.general else existing.general }
  match delta.failedAttempts with
  | some (some l) =>
      if l.isEmpty then merged
      else { merged with
              failedAttempts := some (some (sliceLast 5 (attemptsOf merged ++ l))) }
  | _ => merged

/-- Value-level semantics of `mergeStructuredNotes` (memstash.ts lines
76-102): the stored notes after the call, given the stored notes before
it.  An empty delta returns before reading or writing. -/
def mergeStructuredNotes (existing delta : StructuredNotes) : StructuredNotes :=
  if isEmptyDelta delta then existing else mergeNotesFields existing delta

/-- `mergeStructuredNotes` acting on the backend store, with its
try/catch: a failed write leaves the store unchanged. -/
def mergeStructuredNotesOp (bk : Backend) (st : Store) (delta : StructuredNotes) : Store :=
  if isEmptyDelta delta then st
  else
    match redisSetMem bk st (mergeNotesFields (getStructuredNotes bk st) delta) with
    | .ok st' => st'
    | .error _ => st

/-- `clearMemStash` (memstash.ts lines 144-150). -/
def clearMemStash (bk : Backend) (st : Store) : Store :=
  match redisDelMem bk st with
  | .ok st' => st'
  | .error _ => st

/-- `getDecisionLog` (memstash.ts lines 177-185): errors and absent
content both yield `[]`. -/
def getDecisionLog (bk : Backend) (st : Store) : List LogEntry :=
  match redisGetLog bk st with
  | .error _ => []
  | .ok Option.none => []
  | .ok (some l) => l

/-- `appendDecisionLog` (memstash.ts lines 190-214): step number is the
current length plus one, the stored log is cut to the last 500 entries,
and any caught failure returns 0 with the store unchanged. -/
def appendDecisionLog (bk : Backend) (st : Store) (button : GBAButton)
    (reasoning : Str) (timestamp : ℕ) : ℕ × Store :=
  let log := getDecisionLog bk st
  let step := log.length + 1
  let trimmed := sliceLast 500 (log ++ [⟨step, button, reasoning, timestamp⟩])
  match redisSetLog bk st trimmed with
  | .ok st' => (step, st')
  | .error _ => (0, st)

/-- `MEMSTASH_PROMPT_LIMIT` (memstash.ts line 17). -/
def MEMSTASH_PROMPT_LIMIT : ℕ := 1000

/-- `MEMSTASH_MAX_TOTAL` (memstash.ts line 20). -/
def MEMSTASH_MAX_TOTAL : ℕ := 5000

/-- `truncated.lastIndexOf(chr(10))` for the newline character, as an
optional index. -/
def lastIndexOfNewline (l : Str) : Option ℕ :=
  match l.reverse.findIdx? (fun c => decide (c = '\n')) with
  | some j => some (l.length - 1 - j)
  | Option.none => Option.none

/-- The truncation of `getMemStashForPrompt` (memstash.ts lines
158-171): cut the content to the first 1000 characters, backing up to
the last newline when one falls within the final 100 characters. -/
def promptCut (content : Str) : Str :=
  if content.isEmpty then []
  else if content.length ≤ MEMSTASH_PROMPT_LIMIT then content
  else
    match lastIndexOfNewline (content.take MEMSTASH_PROMPT_LIMIT) with
    | some i =>
        if MEMSTASH_PROMPT_LIMIT - 100 < i then (content.take MEMSTASH_PROMPT_LIMIT).take i
        else content.take MEMSTASH_PROMPT_LIMIT
    | Option.none => content.take MEMSTASH_PROMPT_LIMIT

/-- `getMemStashForPrompt` (memstash.ts lines 156-172). -/
def getMemStashForPrompt (bk : Backend) (st : Store) : Str :=
  promptCut (getMemStash bk st)

theorem promptCut_length_le (content : Str) :
    (promptCut content).length ≤ MEMSTASH_PROMPT_LIMIT := by
  unfold promptCut
  by_cases h0 : content.isEmpty
  · rw [if_pos h0]
    simp [MEMSTASH_PROMPT_LIMIT]
  · rw [if_neg h0]
    by_cases h1 : content.length ≤ MEMSTASH_PROMPT_LIMIT
    · rw [if_pos h1]
      exact h1
    · rw [if_neg h1]
      cases hfind : lastIndexOfNewline (content.take MEMSTASH_PROMPT_LIMIT) with
      | none =>
        simp only [hfind, List.length_take]
        omega
      | some i =>
        simp only [hfind]
        by_cases h2 : MEMSTASH_PROMPT_LIMIT - 100 < i
        · rw [if_pos h2]
          simp only [List.length_take]
          omega
        · rw [if_neg h2]
          simp only [List.length_take]
          omega

/-- The backend with no failures, for the success-path claims. -/
def okBackend : Backend := ⟨false, false, false⟩

theorem sliceLast_length (n : ℕ) (l : List α) :
    (sliceLast n l).length = min n l.length := by
  simp only [sliceLast, List.length_drop]
  omega

/-- The step numbers assigned by a run of appends against the working
backend, oldest first. -/
def runAppendSteps : List (GBAButton × Str × ℕ) → Store → List ℕ
  | [], _ => []
  | (b, r, t) :: ds, st =>
      (appendDecisionLog okBackend st b r t).1 ::
        runAppendSteps ds (appendDecisionLog okBackend st b r t).2

theorem appendDecisionLog_ok_fst (st : Store) (b : GBAButton) (r : Str) (t : ℕ) :
    (appendDecisionLog okBackend st b r t).1 = (getDecisionLog okBackend st).length + 1 :=
  rfl

theorem appendDecisionLog_ok_log (st : Store) (b : GBAButton) (r : Str) (t : ℕ) :
    getDecisionLog okBackend (appendDecisionLog okBackend st b r t).2 =
      sliceLast 500 (getDecisionLog okBackend st ++
        [⟨(getDecisionLog okBackend st).length + 1, b, r, t⟩]) :=
  rfl

theorem storedLen_after_append (st : Store) (b : GBAButton) (r : Str) (t : ℕ) :
    (getDecisionLog okBackend (appendDecisionLog okBackend st b r t).2).length =
      min ((getDecisionLog okBackend st).length + 1) 500 := by
  rw [appendDecisionLog_ok_log, sliceLast_length]
  simp only [List.length_append, List.length_singleton]
  omega

theorem runAppendSteps_chain (ds : List (GBAButton × Str × ℕ)) :
    ∀ st : Store, (getDecisionLog okBackend st).length ≤ 500 →
      List.Chain' (· ≤ ·) (runAppendSteps ds st) := by
  induction ds with
  | nil => intro st _; simp [runAppendSteps]
  | cons d ds ih =>
    intro st hst
    obtain ⟨b, r, t⟩ := d
    rw [runAppendSteps, List.chain'_cons']
    refine ⟨?_, ih _ (by rw [storedLen_after_append]; omega)⟩
    intro y hy
    cases ds with
    | nil => simp [runAppendSteps] at hy
    | cons d' ds' =>
      obtain ⟨b', r', t'⟩ := d'
      simp only [runAppendSteps, List.head?_cons, Option.mem_def, Option.some.injEq] at hy
      subst hy
      rw [appendDecisionLog_ok_fst, appendDecisionLog_ok_fst, storedLen_after_append]
      omega

/-- C7: each append assigns step number equal to the current stored log
length plus one; the stored log is the most recent 500 entries of the
appended log (a suffix of it, of length `min (len+1) 500`); and across
any run of appends from an empty store the assigned step numbers are
monotone (non-decreasing; they increment strictly until the log reaches
its 500-entry cap, where they saturate). -/
theorem C7_decision_log_append (st : Store) (b : GBAButton) (r : Str) (t : ℕ)
    (ds : List (GBAButton × Str × ℕ)) :
    (appendDecisionLog okBackend st b r t).1 = (getDecisionLog okBackend st).length + 1
    ∧ getDecisionLog okBackend (appendDecisionLog okBackend st b r t).2 =
        sliceLast 500 (getDecisionLog okBackend st ++
          [⟨(getDecisionLog okBackend st).length + 1, b, r, t⟩])
    ∧ (getDecisionLog okBackend (appendDecisionLog okBackend st b r t).2).length =
        min ((getDecisionLog okBackend st).length + 1) 500
    ∧ (getDecisionLog okBackend (appendDecisionLog okBackend st b r t).2) <:+
        (getDecisionLog okBackend st ++
          [⟨(getDecisionLog okBackend st).length + 1, b, r, t⟩])
    ∧ List.Chain' (· ≤ ·) (runAppendSteps ds {}) :=
  ⟨rfl, rfl, storedLen_after_append st b r t, List.drop_suffix _ _,
   runAppendSteps_chain ds {} (by simp [getDecisionLog, redisGetLog, okBackend])⟩

/-- Total characters held in a stored notes object (the size of its
field contents; the serialized JSON is at least this large). -/
def optChars : Option (Option Str) → ℕ
  | some (some s) => s.length
  | _ => 0

def notesChars (n : StructuredNotes) : ℕ :=
  optChars n.currentObjective + optChars n.lastKnownLocation + optChars n.exitFound +
    (match n.failedAttempts with
     | some (some l) => (l.map List.length).sum
     | _ => 0) +
    optChars n.importantDiscovery + optChars n.general +
    (match n._legacyText with
     | some s => s.length
     | _ => 0)

theorem optChars_general_le (n : StructuredNotes) : optChars n.general ≤ notesChars n := by
  unfold notesChars
  omega

/-- C8 counterexample: the structured-merge path enforces no size bound,
so one merge of a 6000-character `general` field into empty notes stores
an object beyond the claimed ~5 KiB cap (`MEMSTASH_MAX_TOTAL` is only
consulted by the legacy string path). -/
theorem C8_stored_notes_unbounded :
    MEMSTASH_MAX_TOTAL <
      notesChars (mergeStructuredNotes emptyNotes
        { general := some (some (List.replicate 6000 'x')) }) := by
  refine lt_of_lt_of_le ?_ (optChars_general_le _)
  have hg : (mergeStructuredNotes emptyNotes
      { general := some (some (List.replicate 6000 'x')) }).general =
      some (some (List.replicate 6000 'x')) := rfl
  rw [hg,
    show optChars (some (some (List.replicate 6000 'x'))) =
      (List.replicate 6000 'x').length from rfl,
    List.length_replicate]
  norm_num [MEMSTASH_MAX_TOTAL]

/-- C8 (amended): the prompt projection of the memstash content never
exceeds 1000 characters, for every backend outcome and stored value
(structured or legacy). -/
theorem C8_prompt_projection_bounded (bk : Backend) (st : Store) :
    (getMemStashForPrompt bk st).length ≤ MEMSTASH_PROMPT_LIMIT :=
  promptCut_length_le (getMemStash bk st)

/-- C9: merging a delta and then the empty delta stores the same notes
as merging the delta alone; every present non-array schema field of the
delta overwrites the stored value (including overwriting with null); and
a present non-empty `failedAttempts` delta is appended to the stored
list and truncated to the last five entries. -/
theorem C9_merge_notes_semantics (s x d : StructuredNotes) :
    mergeStructuredNotes (mergeStructuredNotes s x) emptyNotes = mergeStructuredNotes s x
    ∧ (∀ v, d.currentObjective = some v →
        (mergeStructuredNotes s d).currentObjective = some v)
    ∧ (∀ v, d.lastKnownLocation = some v →
        (mergeStructuredNotes s d).lastKnownLocation = some v)
    ∧ (∀ v, d.exitFound = some v → (mergeStructuredNotes s d).exitFound = some v)
    ∧ (∀ v, d.stuckMode = some v → (mergeStructuredNotes s d).stuckMode = some v)
    ∧ (∀ v, d.importantDiscovery = some v →
        (mergeStructuredNotes s d).importantDiscovery = some v)
    ∧ (∀ v, d.general = some v → (mergeStructuredNotes s d).general = some v)
    ∧ (∀ l, d.failedAttempts = some (some l) → l ≠ [] →
        (mergeStructuredNotes s d).failedAttempts =
          some (some (sliceLast 5 (attemptsOf s ++ l)))) := by
  refine ⟨rfl, ?_, ?_, ?_, ?_, ?_, ?_, ?_⟩
  · intro v hv
    have hne : isEmptyDelta d = false := by simp [isEmptyDelta, hv]
    rcases hfa : d.failedAttempts with _ | ⟨_ | l⟩ <;>
      simp [mergeStructuredNotes, hne, mergeNotesFields, hfa, hv] <;>
      split <;> simp [hv]
  · intro v hv
    have hne : isEmptyDelta d = false := by simp [isEmptyDelta, hv]
    rcases hfa : d.failedAttempts with _ | ⟨_ | l⟩ <;>
      simp [mergeStructuredNotes, hne, mergeNotesFields, hfa, hv] <;>
      split <;> simp [hv]
  · intro v hv
    have hne : isEmptyDelta d = false := by simp [isEmptyDelta, hv]
    rcases hfa : d.failedAttempts with _ | ⟨_ | l⟩ <;>
      simp [mergeStructuredNotes, hne, mergeNotesFields, hfa, hv] <;>
      split <;> simp [hv]
  · intro v hv
    have hne : isEmptyDelta d = false := by simp [isEmptyDelta, hv]
    rcases hfa : d.failedAttempts with _ | ⟨_ | l⟩ <;>
      simp [mergeStructuredNotes, hne, mergeNotesFields, hfa, hv] <;>
      split <;> simp [hv]
  · intro v hv
    have hne : isEmptyDelta d = false := by simp [isEmptyDelta, hv]
    rcases hfa : d.failedAttempts with _ | ⟨_ | l⟩ <;>
      simp [mergeStructuredNotes, hne, mergeNotesFields, hfa, hv] <;>
      split <;> simp [hv]
  · intro v hv
    have hne : isEmptyDelta d = false := by simp [isEmptyDelta, hv]
    rcases hfa : d.failedAttempts with _ | ⟨_ | l⟩ <;>
      simp [mergeStructuredNotes, hne, mergeNotesFields, hfa, hv] <;>
      split <;> simp [hv]
  · intro l hl hlne
    have hne : isEmptyDelta d = false := by simp [isEmptyDelta, hl]
    have hle : l.isEmpty = false := by
      cases l with
      | nil => exact absurd rfl hlne
      | cons a t => rfl
    simp [mergeStructuredNotes, hne, mergeNotesFields, hl, hle, attemptsOf]

/-- Witness for C9: a stored object already holding five failed
attempts receives a delta overwriting the objective and adding two more
attempts. -/
theorem C9_merge_notes_semantics_witness :
    (mergeStructuredNotes
        { failedAttempts := some (some [['u'], ['v'], ['w'], ['x'], ['y']]) }
        { currentObjective := some (some ['g', 'o']),
          failedAttempts := some (some [['p'], ['q']]) }).currentObjective =
      some (some ['g', 'o'])
    ∧ (mergeStructuredNotes
        { failedAttempts := some (some [['u'], ['v'], ['w'], ['x'], ['y']]) }
        { currentObjective := some (some ['g', 'o']),
          failedAttempts := some (some [['p'], ['q']]) }).failedAttempts =
      some (some (sliceLast 5 ([['u'], ['v'], ['w'], ['x'], ['y']] ++ [['p'], ['q']]))) :=
  have h := C9_merge_notes_semantics
    { failedAttempts := some (some [['u'], ['v'], ['w'], ['x'], ['y']]) }
    emptyNotes
    { currentObjective := some (some ['g', 'o']),
      failedAttempts := some (some [['p'], ['q']]) }
  ⟨h.2.1 _ rfl, h.2.2.2.2.2.2.2 _ rfl (by simp)⟩

/-- The backend on which every primitive throws. -/
def failingBackend : Backend := ⟨true, true, true⟩

/-- The backend on which reads succeed but writes throw. -/
def writeFailBackend : Backend := ⟨false, true, true⟩

/-- C10: no memory-store operation propagates a backend failure: reads
return neutral values (empty notes, empty string, empty log), a failed
append reports step 0, and failed writes (merge, append, clear) leave
the stored state unchanged — both when everything fails and when only
the writes fail. -/
theorem C10_memory_store_error_neutrality (st : Store) (delta : StructuredNotes)
    (b : GBAButton) (r : Str) (t : ℕ) :
    getStructuredNotes failingBackend st = emptyNotes
    ∧ getMemStash failingBackend st = []
    ∧ getMemStashForPrompt failingBackend st = []
    ∧ getDecisionLog failingBackend st = []
    ∧ appendDecisionLog failingBackend st b r t = (0, st)
    ∧ mergeStructuredNotesOp failingBackend st delta = st
    ∧ clearMemStash failingBackend st = st
    ∧ appendDecisionLog writeFailBackend st b r t = (0, st)
    ∧ mergeStructuredNotesOp writeFailBackend st delta = st
    ∧ clearMemStash writeFailBackend st = st := by
  refine ⟨rfl, rfl, rfl, rfl, rfl, ?_, rfl, rfl, ?_, rfl⟩
  · unfold mergeStructuredNotesOp
    split <;> rfl
  · unfold mergeStructuredNotesOp
    split <;> rfl

end Showdown
